import Mathlib

/-!
Verification of the orchestration-engine specification of the
LARAorchestration/prefect repository.

The repository's source tree carries only the HTTP route layer
(`src/prefect/orion/api/flow_runs.py` and `dependencies.py`); the
orchestration engine those routes call (`models.flow_runs`,
`models.flow_run_states.orchestrate_flow_run_state`, the orchestration
rules) is absent.  Definitions taken directly from the available code say
so in their doc comment; definitions whose code is missing are modelled
from the specification and say `Modelled from the spec:` in theirs.
-/

namespace Prefect

/-- The closed set of state types (spec §3: Pending, Scheduled, Running,
Completed, Failed, Crashed, Cancelled, Paused). -/
inductive StateType
  | Pending
  | Scheduled
  | Running
  | Completed
  | Failed
  | Crashed
  | Cancelled
  | Paused
deriving DecidableEq, Repr

/-- Modelled from the spec: terminal state types are Completed, Failed,
Crashed and Cancelled (§4.1). -/
def isTerminal : StateType → Bool
  | .Completed => true
  | .Failed => true
  | .Crashed => true
  | .Cancelled => true
  | _ => false

/-- Modelled from the spec: the State Transition Validator's
`is_legal(from_type, to_type)` (§4.1).  The validator code is not in the
source tree.  Policy per the spec: terminal types cannot transition to any
*other* type; all other pairs are legal by default unless specifically
disallowed (Running cannot go directly to Pending). -/
def is_legal (src dst : StateType) : Bool :=
  !(isTerminal src && !(dst = src)) && !(src = .Running && dst = .Pending)

theorem is_legal_refl (t : StateType) : is_legal t t = true := by
  cases t <;> rfl

/-- An immutable State record (spec §3): a state type, a message, a
timestamp, and an opaque data payload. -/
structure State where
  stype : StateType
  message : String
  timestamp : Nat
  data : String
deriving DecidableEq, Repr

/-- A Run record (spec §3): identity, parent reference, creation
timestamp, optional idempotency key. -/
structure Run where
  id : Nat
  parent : Nat
  created : Nat
  idempotencyKey : Option String
deriving DecidableEq, Repr

/-- Modelled from the spec: the transactional Run Store (§2, §6), absent
from the source tree.  `states` is the append-only per-run State history
log; `parents` is the set of existing parent (flow) ids; `nextId` supplies
fresh run ids. -/
structure Store where
  parents : List Nat
  runs : List Run
  states : List (Nat × State)
  nextId : Nat
deriving DecidableEq, Repr

/-- Modelled from the spec: run lookup by id (the `models.flow_runs.read_flow_run`
call behind the `GET /flow_runs/:id` route is not in the source tree). -/
def read_flow_run (store : Store) (runId : Nat) : Option Run :=
  store.runs.find? (fun r => decide (r.id = runId))

/-- Modelled from the spec: `find_run_by_idempotency_key(parent_id, key)`
of the Run Store interface (§6). -/
def find_run_by_idempotency_key (store : Store) (parentId : Nat) (key : String) :
    Option Run :=
  store.runs.find? (fun r => decide (r.parent = parentId ∧ r.idempotencyKey = some key))

/-- The state history of one run, in append order, read off the store's
append-only log. -/
def historyOf (store : Store) (runId : Nat) : List State :=
  store.states.filterMap (fun p => if p.1 = runId then some p.2 else none)

/-- Freshness discipline of the store: every recorded run id and every
history row's run id is below the next fresh id. -/
def Store.fresh (store : Store) : Prop :=
  (∀ r ∈ store.runs, r.id < store.nextId) ∧ (∀ p ∈ store.states, p.1 < store.nextId)

/-- Adjacent steps of a history must be legal per the validator. -/
def legalStep (a b : State) : Prop := is_legal a.stype b.stype = true

/-- Every run's history is a legal transition chain (spec §3 invariant). -/
def allChainsLegal (store : Store) : Prop :=
  ∀ runId : Nat, List.Chain' legalStep (historyOf store runId)

/-- The SetStateStatus vocabulary of an orchestration outcome, as used by
`set_flow_run_state` in `src/prefect/orion/api/flow_runs.py` (ACCEPT,
REJECT, ABORT, WAIT). -/
inductive SetStateStatus
  | ACCEPT
  | REJECT
  | ABORT
  | WAIT
deriving DecidableEq, Repr

/-- The typed outcome returned to the caller (spec §3): a status plus,
on acceptance, the persisted state, plus human-readable details. -/
structure OrchestrationResult where
  status : SetStateStatus
  state : Option State
  details : String
deriving DecidableEq, Repr

/-- An ACCEPT outcome must carry the accepted state (spec §3:
`ACCEPTED(state)`). -/
def OrchestrationResult.wellFormed (res : OrchestrationResult) : Prop :=
  res.status = .ACCEPT → res.state.isSome = true

/-- The distinct not-found error of `propose_state` (spec §6, §7a). -/
inductive NotFoundError
  | runNotFound (runId : Nat)
deriving DecidableEq, Repr

/-- The error of `create_run` when the parent does not exist (spec §6). -/
inductive ValidationError
  | parentNotFound (parentId : Nat)
deriving DecidableEq, Repr

/-- Modelled from the spec: the Cancellation-override rule (§4.2) — a
proposal to move into Cancelled is legal regardless of current type,
except from terminal types already reached; the rule code is not in the
source tree. -/
def cancellationOverride (src dst : StateType) : Bool :=
  dst = .Cancelled && !(isTerminal src)

theorem cancellationOverride_legal (src dst : StateType)
    (h : cancellationOverride src dst = true) : is_legal src dst = true := by
  revert h
  cases src <;> cases dst <;> decide

/-- Modelled from the spec: `propose_state(run_id, proposed_state)` (§6),
i.e. the engine behind `models.flow_run_states.orchestrate_flow_run_state`,
which is not in the source tree.  Fails with `NotFoundError` when the run
id is unknown (§7a); otherwise the pipeline runs: the Idempotency rule
(§4.2) short-circuits a same-type, identical-payload proposal to an
accepted no-op; a structurally illegal transition not covered by the
Cancellation-override rule is REJECTED with no mutation (§4.1, §8);
otherwise the proposal is persisted as a new history entry and ACCEPTED
(§4.3).  A run that has no state yet accepts the proposal as its first
state. -/
def propose_state (store : Store) (runId : Nat) (proposed : State) :
    Except NotFoundError (Store × OrchestrationResult) :=
  match read_flow_run store runId with
  | none => .error (.runNotFound runId)
  | some _ =>
    match (historyOf store runId).getLast? with
    | none =>
      .ok ({ store with states := store.states ++ [(runId, proposed)] },
        { status := .ACCEPT, state := some proposed, details := "initial state" })
    | some cur =>
      if proposed.stype = cur.stype ∧ proposed.data = cur.data then
        .ok (store, { status := .ACCEPT, state := some cur, details := "no-op" })
      else if is_legal cur.stype proposed.stype || cancellationOverride cur.stype proposed.stype then
        .ok ({ store with states := store.states ++ [(runId, proposed)] },
          { status := .ACCEPT, state := some proposed, details := "transition accepted" })
      else
        .ok (store, { status := .REJECT, state := none, details := "illegal transition" })

/-- Modelled from the spec: `create_run(parent_id, idempotency_key?,
initial_state?)` (§6) with the Idempotent Creation Guard (§4.4), i.e.
`models.flow_runs.create_flow_run`, which is not in the source tree.
Fails with `ValidationError` when the parent does not exist; when the
request carries an idempotency key matching an existing (parent, key)
pair, returns that run unchanged; otherwise inserts a fresh run together
with its initial State history row. -/
def create_run (store : Store) (now : Nat) (parentId : Nat) (key : Option String)
    (initial : State) : Except ValidationError (Store × Run) :=
  if parentId ∈ store.parents then
    let fresh : Run :=
      { id := store.nextId, parent := parentId, created := now, idempotencyKey := key }
    let inserted : Store × Run :=
      ({ store with
          runs := store.runs ++ [fresh],
          states := store.states ++ [(fresh.id, initial)],
          nextId := store.nextId + 1 }, fresh)
    match key with
    | some k =>
      match find_run_by_idempotency_key store parentId k with
      | some existing => .ok (store, existing)
      | none => .ok inserted
    | none => .ok inserted
  else
    .error (.parentNotFound parentId)

/-- The default Pending state (`schemas.states.Pending()`). -/
def statePending : State :=
  { stype := .Pending, message := "", timestamp := 0, data := "" }

/-- The body of a `POST /flow_runs/` request (`schemas.actions.FlowRunCreate`):
a parent flow id, an optional idempotency key, an optional initial state. -/
structure FlowRunCreate where
  flowId : Nat
  idempotencyKey : Option String
  state : Option State
deriving DecidableEq, Repr

/-- The `create_flow_run` route of `src/prefect/orion/api/flow_runs.py`
(lines 20–39): when the request supplies no state, the flow run is created
in a Pending state; the request is then handed to the model layer's
creation (modelled by `create_run`). -/
def create_flow_run (store : Store) (now : Nat) (flow_run : FlowRunCreate) :
    Except ValidationError (Store × Run) :=
  let flow_run :=
    if flow_run.state = none then { flow_run with state := some statePending } else flow_run
  create_run store now flow_run.flowId flow_run.idempotencyKey
    (flow_run.state.getD statePending)

/-- The `set_flow_run_state` route of `src/prefect/orion/api/flow_runs.py`
(lines 160–185): orchestrate the proposed state (modelled by
`propose_state`), then choose the HTTP response code — 200 for a WAIT
outcome, 200 for an ABORT outcome, 201 Created otherwise. -/
def set_flow_run_state (store : Store) (runId : Nat) (state : State) :
    Except NotFoundError (Store × OrchestrationResult × Nat) :=
  match propose_state store runId state with
  | .error e => .error e
  | .ok (store1, result) =>
    let code : Nat :=
      if result.status = .WAIT then 200
      else if result.status = .ABORT then 200
      else 201
    .ok (store1, result, code)

/-- Modelled from the spec: a rule's Decision (§4.2) — continue, or one of
the terminal outcomes REJECTED / ABORTED / WAIT. -/
inductive Decision
  | proceed
  | reject (reason : String)
  | abort (reason : String)
  | wait (delaySeconds : Nat) (reason : String)
deriving DecidableEq, Repr

/-- REJECT and ABORT and WAIT are terminal decisions; proceed is not. -/
def Decision.isTerminal : Decision → Bool
  | .proceed => false
  | _ => true

/-- Modelled from the spec: the Orchestration Context (§3) — the current
and proposed state types fixed at pipeline start (rules match on these),
the mutable proposed state, the decision flag, and accumulated warnings. -/
structure RuleContext where
  currentType : StateType
  proposedType : StateType
  proposedState : State
  decision : Decision
  warnings : List String
deriving DecidableEq, Repr

/-- Modelled from the spec: the guarded decision setter of the
Orchestration Context (§3, §4.3).  Once a terminal decision is set, no
later attempt may override it; a second attempted terminal decision only
records a conflict warning naming the offending rule. -/
def setDecision (ctx : RuleContext) (ruleName : String) (d : Decision) : RuleContext :=
  if ctx.decision.isTerminal then
    if d.isTerminal then
      { ctx with warnings := ctx.warnings ++ [ruleName ++ " conflicts with a prior terminal decision"] }
    else
      ctx
  else
    { ctx with decision := d }

/-- Modelled from the spec: a Rule (§4.2) — a name, the (from, to) pairs
it applies to, and a `before_transition` hook that may rewrite the
proposed state and produce a Decision. -/
structure Rule where
  name : String
  appliesTo : StateType → StateType → Bool
  before_transition : RuleContext → State × Decision

/-- Modelled from the spec: one pipeline step (§4.3).  A context already
carrying a terminal decision is passed through untouched (the pipeline
short-circuits); rules match on the state types fixed at pipeline start;
a matching rule's decision goes through the guarded setter. -/
def applyRule (src dst : StateType) (ctx : RuleContext) (r : Rule) : RuleContext :=
  if ctx.decision.isTerminal then
    ctx
  else if r.appliesTo src dst then
    let out := r.before_transition ctx
    setDecision { ctx with proposedState := out.1 } r.name out.2
  else
    ctx

/-- Modelled from the spec: the Orchestration Pipeline (§4.3) — the
ordered rules are folded over the context, short-circuiting on the first
terminal decision. -/
def runPipeline (src dst : StateType) (rules : List Rule) (ctx : RuleContext) :
    RuleContext :=
  rules.foldl (applyRule src dst) ctx

/-- An empty store over the given parent ids. -/
def emptyStore (parents : List Nat) : Store :=
  { parents := parents, runs := [], states := [], nextId := 0 }

/-- The stores reachable by the engine's two operations (spec §6) from an
empty store. -/
inductive Reachable : Store → Prop
  | init (parents : List Nat) : Reachable (emptyStore parents)
  | create (store store1 : Store) (now parentId : Nat) (key : Option String)
      (initial : State) (run : Run) :
      Reachable store →
      create_run store now parentId key initial = .ok (store1, run) →
      Reachable store1
  | propose (store store1 : Store) (runId : Nat) (proposed : State)
      (res : OrchestrationResult) :
      Reachable store →
      propose_state store runId proposed = .ok (store1, res) →
      Reachable store1

theorem historyOf_append {store store1 : Store} (id : Nat) (s : State) (runId : Nat)
    (h : store1.states = store.states ++ [(id, s)]) :
    historyOf store1 runId = historyOf store runId ++ (if id = runId then [s] else []) := by
  by_cases hid : id = runId <;>
    simp [historyOf, h, List.filterMap_append, List.filterMap_cons, hid]

theorem historyOf_nextId_nil (store : Store)
    (h : ∀ p ∈ store.states, p.1 < store.nextId) :
    historyOf store store.nextId = [] := by
  refine List.filterMap_eq_nil_iff.mpr (fun p hp => ?_)
  exact if_neg (Nat.ne_of_lt (h p hp))

theorem runPipeline_terminal (src dst : StateType) (rules : List Rule)
    (ctx : RuleContext) (h : ctx.decision.isTerminal = true) :
    runPipeline src dst rules ctx = ctx := by
  induction rules with
  | nil => rfl
  | cons r rs ih =>
    simp only [runPipeline, List.foldl_cons]
    rw [show applyRule src dst ctx r = ctx from by simp [applyRule, h]]
    exact ih

theorem create_run_inserts (store : Store) (now parentId : Nat) (key : Option String)
    (initial : State)
    (hparent : parentId ∈ store.parents)
    (hkey : ∀ k, key = some k → find_run_by_idempotency_key store parentId k = none) :
    create_run store now parentId key initial =
      .ok ({ store with
              runs := store.runs ++
                [{ id := store.nextId, parent := parentId, created := now,
                   idempotencyKey := key }],
              states := store.states ++ [(store.nextId, initial)],
              nextId := store.nextId + 1 },
            { id := store.nextId, parent := parentId, created := now,
              idempotencyKey := key }) := by
  unfold create_run
  rw [if_pos hparent]
  cases key with
  | none => rfl
  | some k =>
    simp only [hkey k rfl]

theorem fresh_insert_inv {store store1 : Store} (run : Run) (initial : State)
    (hruns : store1.runs = store.runs ++ [run])
    (hstates : store1.states = store.states ++ [(store.nextId, initial)])
    (hnext : store1.nextId = store.nextId + 1)
    (hid : run.id = store.nextId)
    (ihf : Store.fresh store) (ihc : allChainsLegal store) :
    Store.fresh store1 ∧ allChainsLegal store1 := by
  refine ⟨⟨fun r hr => ?_, fun p hp => ?_⟩, fun runId => ?_⟩
  · rw [hruns] at hr
    rcases List.mem_append.mp hr with h1 | h1
    · exact hnext ▸ Nat.lt_succ_of_lt (ihf.1 r h1)
    · rw [List.mem_singleton] at h1
      subst h1
      rw [hid, hnext]
      exact Nat.lt_succ_self _
  · rw [hstates] at hp
    rcases List.mem_append.mp hp with h1 | h1
    · exact hnext ▸ Nat.lt_succ_of_lt (ihf.2 p h1)
    · rw [List.mem_singleton] at h1
      subst h1
      rw [hnext]
      exact Nat.lt_succ_self _
  · rw [historyOf_append store.nextId initial runId hstates]
    by_cases hr : store.nextId = runId
    · subst hr
      rw [historyOf_nextId_nil store ihf.2]
      simp
    · simp only [if_neg hr, List.append_nil]
      exact ihc runId

theorem propose_inv {store store1 : Store} (runId : Nat) (proposed : State)
    (res : OrchestrationResult)
    (h : propose_state store runId proposed = .ok (store1, res))
    (ihf : Store.fresh store) (ihc : allChainsLegal store) :
    Store.fresh store1 ∧ allChainsLegal store1 := by
  unfold propose_state at h
  cases hfind : read_flow_run store runId with
  | none =>
    rw [hfind] at h
    cases h
  | some run =>
    rw [hfind] at h
    have hfind' : store.runs.find? (fun r => decide (r.id = runId)) = some run := hfind
    have hmem : run ∈ store.runs := List.mem_of_find?_eq_some hfind'
    have hrid : run.id = runId := by
      have hp := List.find?_some hfind'
      simpa using hp
    have hlt : runId < store.nextId := hrid ▸ ihf.1 run hmem
    have hfresh1 :
        Store.fresh { store with states := store.states ++ [(runId, proposed)] } := by
      refine ⟨fun r hr => ihf.1 r hr, fun p hp => ?_⟩
      rcases List.mem_append.mp hp with h1 | h1
      · exact ihf.2 p h1
      · rw [List.mem_singleton] at h1
        subst h1
        exact hlt
    have happend : ∀ runId1,
        List.Chain' legalStep (historyOf
          { store with states := store.states ++ [(runId, proposed)] } runId1) ∨
        historyOf { store with states := store.states ++ [(runId, proposed)] } runId1 =
          historyOf store runId1 ++ [proposed] ∧ runId = runId1 := by
      intro runId1
      by_cases hr : runId = runId1
      · exact Or.inr ⟨by rw [historyOf_append runId proposed runId1 rfl, if_pos hr], hr⟩
      · refine Or.inl ?_
        rw [historyOf_append runId proposed runId1 rfl, if_neg hr, List.append_nil]
        exact ihc runId1
    cases hlast : (historyOf store runId).getLast? with
    | none =>
      rw [hlast] at h
      simp only [Except.ok.injEq, Prod.mk.injEq] at h
      obtain ⟨h1, h2⟩ := h
      subst h1
      refine ⟨hfresh1, fun runId1 => ?_⟩
      rcases happend runId1 with hc | ⟨heq, hr⟩
      · exact hc
      · rw [heq, ← hr]
        rw [List.getLast?_eq_none_iff] at hlast
        rw [hlast]
        simp
    | some cur =>
      rw [hlast] at h
      simp only [] at h
      split at h
      · simp only [Except.ok.injEq, Prod.mk.injEq] at h
        obtain ⟨h1, h2⟩ := h
        subst h1
        exact ⟨ihf, ihc⟩
      · split at h
        · rename_i hlegal
          simp only [Except.ok.injEq, Prod.mk.injEq] at h
          obtain ⟨h1, h2⟩ := h
          subst h1
          refine ⟨hfresh1, fun runId1 => ?_⟩
          rcases happend runId1 with hc | ⟨heq, hr⟩
          · exact hc
          · rw [heq, ← hr]
            rw [List.chain'_append]
            refine ⟨ihc runId, List.chain'_singleton proposed, fun x hx y hy => ?_⟩
            rw [hlast, Option.mem_some_iff] at hx
            rw [List.head?_cons, Option.mem_some_iff] at hy
            subst hx
            subst hy
            simp only [Bool.or_eq_true] at hlegal
            rcases hlegal with hleg | hov
            · exact hleg
            · exact cancellationOverride_legal _ _ hov
        · simp only [Except.ok.injEq, Prod.mk.injEq] at h
          obtain ⟨h1, h2⟩ := h
          subst h1
          exact ⟨ihf, ihc⟩

theorem reachable_inv {store : Store} (h : Reachable store) :
    Store.fresh store ∧ allChainsLegal store := by
  induction h with
  | init parents =>
    refine ⟨⟨fun r hr => ?_, fun p hp => ?_⟩, fun runId => ?_⟩
    · cases hr
    · cases hp
    · simp [historyOf, emptyStore]
  | create store store1 now parentId key initial run hreach hcr ih =>
    unfold create_run at hcr
    by_cases hp : parentId ∈ store.parents
    · rw [if_pos hp] at hcr
      cases key with
      | none =>
        simp only [Except.ok.injEq, Prod.mk.injEq] at hcr
        obtain ⟨h1, h2⟩ := hcr
        subst h1
        exact fresh_insert_inv _ initial rfl rfl rfl rfl ih.1 ih.2
      | some k =>
        cases hf : find_run_by_idempotency_key store parentId k with
        | some existing =>
          simp only [hf, Except.ok.injEq, Prod.mk.injEq] at hcr
          obtain ⟨h1, h2⟩ := hcr
          subst h1
          exact ih
        | none =>
          simp only [hf, Except.ok.injEq, Prod.mk.injEq] at hcr
          obtain ⟨h1, h2⟩ := hcr
          subst h1
          exact fresh_insert_inv _ initial rfl rfl rfl rfl ih.1 ih.2
    · rw [if_neg hp] at hcr
      cases hcr
  | propose store store1 runId proposed res hreach hpr ih =>
    exact propose_inv runId proposed res hpr ih.1 ih.2

/-- A sample run used by concrete witnesses. -/
def sampleRun : Run :=
  { id := 1, parent := 0, created := 0, idempotencyKey := none }

/-- A sample Running state used by concrete witnesses. -/
def sRunning : State :=
  { stype := .Running, message := "run", timestamp := 1, data := "" }

/-- A sample Completed state used by concrete witnesses. -/
def sCompleted : State :=
  { stype := .Completed, message := "done", timestamp := 2, data := "" }

/-- A sample store whose single run is in a Completed (terminal) state. -/
def storeCompleted : Store :=
  { parents := [0], runs := [sampleRun], states := [(1, sCompleted)], nextId := 2 }

/-- A sample store whose single run is in a Pending state. -/
def storePending : Store :=
  { parents := [0], runs := [sampleRun], states := [(1, statePending)], nextId := 2 }

/-- C1: for every (from_type, to_type) pair that is not in the
legal-transition table and is not covered by the cancellation-override
rule — in particular for every normal proposal whose from_type is
terminal — `propose_state` returns REJECTED and the store, hence the
run's current state, is unchanged. -/
theorem illegal_transition_rejected (store : Store) (runId : Nat) (proposed : State)
    (run : Run) (cur : State)
    (hrun : read_flow_run store runId = some run)
    (hcur : (historyOf store runId).getLast? = some cur)
    (hillegal : is_legal cur.stype proposed.stype = false)
    (hnoov : cancellationOverride cur.stype proposed.stype = false) :
    propose_state store runId proposed =
      .ok (store, { status := .REJECT, state := none, details := "illegal transition" }) := by
  have hty : ¬(proposed.stype = cur.stype ∧ proposed.data = cur.data) := by
    rintro ⟨h1, _⟩
    rw [h1, is_legal_refl] at hillegal
    cases hillegal
  unfold propose_state
  simp only [hrun, hcur, if_neg hty, hillegal, hnoov, Bool.or_false]
  split
  · rename_i hcond
    cases hcond
  · rfl

/-- C1 witness: a run whose current state is Completed (terminal) rejects
a proposal to move back to Running, leaving the store unchanged. -/
theorem illegal_transition_rejected_witness :
    propose_state storeCompleted 1 sRunning =
      .ok (storeCompleted,
        { status := .REJECT, state := none, details := "illegal transition" }) :=
  illegal_transition_rejected storeCompleted 1 sRunning sampleRun sCompleted
    (by rfl) (by rfl) (by rfl) (by rfl)

/-- C2: on every store reachable by the engine's operations, every run's
state history, read in order, is at every adjacent step a legal transition
per the validator's `is_legal`; no operation appends a State that makes
the chain illegal. -/
theorem reachable_history_legal (store : Store) (h : Reachable store) :
    allChainsLegal store :=
  (reachable_inv h).2

/-- C2 witness: a store reached by creating a run and then accepting a
Pending → Running transition has only legal history chains. -/
theorem reachable_history_legal_witness :
    allChainsLegal
      { parents := [7], runs := [{ id := 0, parent := 7, created := 3, idempotencyKey := none }],
        states := [(0, statePending), (0, sRunning)], nextId := 1 } :=
  reachable_history_legal _
    (Reachable.propose _ _ 0 sRunning
      { status := .ACCEPT, state := some sRunning, details := "transition accepted" }
      (Reachable.create (emptyStore [7]) _ 3 7 none statePending
        { id := 0, parent := 7, created := 3, idempotencyKey := none }
        (Reachable.init [7]) (by rfl))
      (by rfl))

/-- C4: proposing a state whose type equals the current state's type with
an identical payload returns ACCEPTED and leaves the store — hence the
run's history length — unchanged. -/
theorem noop_proposal_accepted (store : Store) (runId : Nat) (proposed : State)
    (run : Run) (cur : State)
    (hrun : read_flow_run store runId = some run)
    (hcur : (historyOf store runId).getLast? = some cur)
    (hty : proposed.stype = cur.stype) (hdata : proposed.data = cur.data) :
    propose_state store runId proposed =
      .ok (store, { status := .ACCEPT, state := some cur, details := "no-op" }) := by
  unfold propose_state
  simp only [hrun, hcur]
  rw [if_pos ⟨hty, hdata⟩]

/-- C4 witness: re-proposing Completed with the same payload on a run
already Completed is accepted as a no-op with the store unchanged. -/
theorem noop_proposal_accepted_witness :
    propose_state storeCompleted 1
        { stype := .Completed, message := "again", timestamp := 9, data := "" } =
      .ok (storeCompleted,
        { status := .ACCEPT, state := some sCompleted, details := "no-op" }) :=
  noop_proposal_accepted storeCompleted 1
    { stype := .Completed, message := "again", timestamp := 9, data := "" }
    sampleRun sCompleted (by rfl) (by rfl) (by rfl) (by rfl)

/-- C3: creating a run twice with the same (parent, key) — starting from a
store with no run for that pair — returns the same run both times, the
second call changes nothing (no new run, no new State, no new history
row), and exactly one State/history row exists for that run afterwards. -/
theorem create_run_idempotent (store : Store) (now1 now2 : Nat) (parentId : Nat)
    (k : String) (s1 s2 : State)
    (hparent : parentId ∈ store.parents)
    (hfresh : ∀ p ∈ store.states, p.1 < store.nextId)
    (hnone : find_run_by_idempotency_key store parentId k = none) :
    ∃ store1 r1,
      create_run store now1 parentId (some k) s1 = .ok (store1, r1) ∧
      create_run store1 now2 parentId (some k) s2 = .ok (store1, r1) ∧
      historyOf store1 r1.id = [s1] := by
  refine ⟨_, _, create_run_inserts store now1 parentId (some k) s1 hparent
    (fun k1 hk1 => by rw [← Option.some_inj.mp hk1]; exact hnone), ?_, ?_⟩
  · unfold create_run
    rw [if_pos (show parentId ∈ store.parents from hparent)]
    have hfound : find_run_by_idempotency_key
        { store with
            runs := store.runs ++
              [{ id := store.nextId, parent := parentId, created := now1,
                 idempotencyKey := some k }],
            states := store.states ++ [(store.nextId, s1)],
            nextId := store.nextId + 1 } parentId k =
        some { id := store.nextId, parent := parentId, created := now1,
               idempotencyKey := some k } := by
      unfold find_run_by_idempotency_key at hnone ⊢
      rw [List.find?_append, hnone]
      simp
    simp only [hfound]
  · rw [historyOf_append store.nextId s1 store.nextId rfl, if_pos rfl,
      historyOf_nextId_nil store hfresh, List.nil_append]

/-- C3 witness: creating a run under key "k1" twice on a concrete store
returns the same run and leaves exactly one history row. -/
theorem create_run_idempotent_witness :
    ∃ store1 r1,
      create_run storePending 4 0 (some "k1") sCompleted = .ok (store1, r1) ∧
      create_run store1 5 0 (some "k1") sRunning = .ok (store1, r1) ∧
      historyOf store1 r1.id = [sCompleted] :=
  create_run_idempotent storePending 4 5 0 "k1" sCompleted sRunning
    (by decide) (by decide) (by rfl)

/-- C5: for an existing run, `propose_state` always returns a value — a
well-formed OrchestrationResult whose status is one of ACCEPT, REJECT,
ABORT or WAIT — and never an error for a business-logic rejection. -/
theorem propose_state_total_on_existing (store : Store) (runId : Nat)
    (proposed : State) (run : Run)
    (hrun : read_flow_run store runId = some run) :
    ∃ store1 res, propose_state store runId proposed = .ok (store1, res) ∧
      (res.status = .ACCEPT ∨ res.status = .REJECT ∨ res.status = .ABORT ∨
        res.status = .WAIT) ∧
      res.wellFormed := by
  cases hcur : (historyOf store runId).getLast? with
  | none =>
    unfold propose_state
    simp only [hrun, hcur]
    exact ⟨_, _, rfl, Or.inl rfl, fun _ => rfl⟩
  | some cur =>
    unfold propose_state
    simp only [hrun, hcur]
    by_cases h1 : proposed.stype = cur.stype ∧ proposed.data = cur.data
    · rw [if_pos h1]
      exact ⟨_, _, rfl, Or.inl rfl, fun _ => rfl⟩
    · rw [if_neg h1]
      by_cases h2 : (is_legal cur.stype proposed.stype ||
          cancellationOverride cur.stype proposed.stype) = true
      · rw [if_pos h2]
        exact ⟨_, _, rfl, Or.inl rfl, fun _ => rfl⟩
      · rw [if_neg h2]
        exact ⟨_, _, rfl, Or.inr (Or.inl rfl), fun hx => by cases hx⟩

/-- C5 witness: proposing Running on the Pending run of a concrete store
returns an ACCEPT value. -/
theorem propose_state_total_on_existing_witness :
    ∃ store1 res, propose_state storePending 1 sRunning = .ok (store1, res) ∧
      (res.status = .ACCEPT ∨ res.status = .REJECT ∨ res.status = .ABORT ∨
        res.status = .WAIT) ∧
      res.wellFormed :=
  propose_state_total_on_existing storePending 1 sRunning sampleRun (by rfl)

/-- C6: `propose_state` fails with the distinct NotFoundError exactly when
the run id refers to no existing run; a known run id always yields an
ordinary OrchestrationResult, and an unknown one never does. -/
theorem propose_state_not_found_iff (store : Store) (runId : Nat) (proposed : State) :
    (propose_state store runId proposed = .error (.runNotFound runId) ↔
      read_flow_run store runId = none) ∧
    ((∃ out, propose_state store runId proposed = .ok out) ↔
      (∃ run, read_flow_run store runId = some run)) := by
  cases hfind : read_flow_run store runId with
  | none =>
    have heq : propose_state store runId proposed = .error (.runNotFound runId) := by
      unfold propose_state
      rw [hfind]
    rw [heq]
    simp
  | some run =>
    have hex : ∃ out, propose_state store runId proposed = Except.ok out := by
      cases hcur : (historyOf store runId).getLast? with
      | none =>
        unfold propose_state
        simp only [hfind, hcur]
        exact ⟨_, rfl⟩
      | some cur =>
        unfold propose_state
        simp only [hfind, hcur]
        by_cases h1 : proposed.stype = cur.stype ∧ proposed.data = cur.data
        · rw [if_pos h1]
          exact ⟨_, rfl⟩
        · rw [if_neg h1]
          by_cases h2 : (is_legal cur.stype proposed.stype ||
              cancellationOverride cur.stype proposed.stype) = true
          · rw [if_pos h2]
            exact ⟨_, rfl⟩
          · rw [if_neg h2]
            exact ⟨_, rfl⟩
    obtain ⟨out, hout⟩ := hex
    rw [hout]
    simp

/-- A sample context carrying a terminal REJECT decision, for witnesses. -/
def sampleCtx : RuleContext :=
  { currentType := .Pending, proposedType := .Running, proposedState := sRunning,
    decision := .reject "structurally illegal", warnings := [] }

/-- A sample rule that leaves the context unchanged, for witnesses. -/
def sampleRule : Rule :=
  { name := "noop-rule", appliesTo := fun _ _ => true,
    before_transition := fun c => (c.proposedState, .proceed) }

/-- C7: once the pipeline's context carries a terminal decision, appending
further rules evaluates none of them and changes nothing — the first
terminal decision determines the result — and a second attempted terminal
decision leaves the decision unchanged, only recording a conflict
warning. -/
theorem pipeline_terminal_decision_stable (src dst : StateType)
    (rules1 rules2 : List Rule) (ctx : RuleContext) (ruleName : String) (d : Decision)
    (h : (runPipeline src dst rules1 ctx).decision.isTerminal = true)
    (hd : d.isTerminal = true) :
    runPipeline src dst (rules1 ++ rules2) ctx = runPipeline src dst rules1 ctx ∧
    (setDecision (runPipeline src dst rules1 ctx) ruleName d).decision =
      (runPipeline src dst rules1 ctx).decision ∧
    (setDecision (runPipeline src dst rules1 ctx) ruleName d).warnings =
      (runPipeline src dst rules1 ctx).warnings ++
        [ruleName ++ " conflicts with a prior terminal decision"] := by
  refine ⟨?_, ?_, ?_⟩
  · unfold runPipeline
    rw [List.foldl_append]
    exact runPipeline_terminal src dst rules2 _ h
  · simp [setDecision, h, hd]
  · simp [setDecision, h, hd]

/-- C7 witness: with a REJECT decision already set, appending a rule
changes nothing, and a late ABORT attempt only appends a conflict
warning. -/
theorem pipeline_terminal_decision_stable_witness :
    runPipeline .Pending .Running ([] ++ [sampleRule]) sampleCtx =
      runPipeline .Pending .Running [] sampleCtx ∧
    (setDecision (runPipeline .Pending .Running [] sampleCtx) "late-rule"
        (.abort "conflict")).decision =
      (runPipeline .Pending .Running [] sampleCtx).decision ∧
    (setDecision (runPipeline .Pending .Running [] sampleCtx) "late-rule"
        (.abort "conflict")).warnings =
      (runPipeline .Pending .Running [] sampleCtx).warnings ++
        ["late-rule" ++ " conflicts with a prior terminal decision"] :=
  pipeline_terminal_decision_stable .Pending .Running [] [sampleRule] sampleCtx
    "late-rule" (.abort "conflict") (by rfl) (by rfl)

/-- A sample creation request carrying no state, for witnesses. -/
def sampleCreate : FlowRunCreate :=
  { flowId := 0, idempotencyKey := none, state := none }

/-- C9: when `create_flow_run` receives a request whose state field is
absent, the run is created with the Pending state as its initial state;
a caller-supplied state is used unchanged — the initial history row is
`fr.state.getD statePending`. -/
theorem create_flow_run_default_pending (store : Store) (now : Nat) (fr : FlowRunCreate)
    (hparent : fr.flowId ∈ store.parents)
    (hfresh : ∀ p ∈ store.states, p.1 < store.nextId)
    (hkey : ∀ k, fr.idempotencyKey = some k →
      find_run_by_idempotency_key store fr.flowId k = none) :
    ∃ store1 run, create_flow_run store now fr = .ok (store1, run) ∧
      historyOf store1 run.id = [fr.state.getD statePending] := by
  have h1 : create_flow_run store now fr =
      create_run store now fr.flowId fr.idempotencyKey (fr.state.getD statePending) := by
    unfold create_flow_run
    cases hst : fr.state with
    | none => simp [hst]
    | some s => simp [hst]
  rw [h1, create_run_inserts store now fr.flowId fr.idempotencyKey _ hparent hkey]
  refine ⟨_, _, rfl, ?_⟩
  rw [historyOf_append store.nextId _ store.nextId rfl, if_pos rfl,
    historyOf_nextId_nil store hfresh, List.nil_append]

/-- C9 witness: a request with no state creates a run whose single history
row is the Pending state. -/
theorem create_flow_run_default_pending_witness :
    ∃ store1 run, create_flow_run storePending 9 sampleCreate = .ok (store1, run) ∧
      historyOf store1 run.id = [sampleCreate.state.getD statePending] :=
  create_flow_run_default_pending storePending 9 sampleCreate (by decide) (by decide)
    (fun k hk => nomatch hk)

/-- C10: the `set_flow_run_state` route maps the orchestration outcome to
the HTTP code 200 exactly when the status is WAIT or ABORT, and to 201
Created for every other status — including REJECT. -/
theorem set_flow_run_state_status_codes (store : Store) (runId : Nat) (s : State)
    (store1 : Store) (res : OrchestrationResult) (code : Nat)
    (h : set_flow_run_state store runId s = .ok (store1, res, code)) :
    (code = 200 ↔ (res.status = .WAIT ∨ res.status = .ABORT)) ∧
    (res.status = .REJECT → code = 201) ∧
    (code = 200 ∨ code = 201) := by
  unfold set_flow_run_state at h
  cases hp : propose_state store runId s with
  | error e =>
    rw [hp] at h
    cases h
  | ok out =>
    obtain ⟨store2, res2⟩ := out
    simp only [hp, Except.ok.injEq, Prod.mk.injEq] at h
    obtain ⟨h1, h2, h3⟩ := h
    subst h2
    subst h3
    obtain ⟨st, stv, det⟩ := res2
    cases st <;> simp

/-- C10 witness: the REJECT outcome of proposing Running on a Completed
run is returned with HTTP 201 Created. -/
theorem set_flow_run_state_status_codes_witness :
    ((201 : Nat) = 200 ↔
      (SetStateStatus.REJECT = SetStateStatus.WAIT ∨
        SetStateStatus.REJECT = SetStateStatus.ABORT)) ∧
    (SetStateStatus.REJECT = SetStateStatus.REJECT → (201 : Nat) = 201) ∧
    ((201 : Nat) = 200 ∨ (201 : Nat) = 201) :=
  set_flow_run_state_status_codes storeCompleted 1 sRunning storeCompleted
    { status := .REJECT, state := none, details := "illegal transition" } 201 (by rfl)

end Prefect
